import Mathlib

/-!
Shallow embedding of the Kalshi high-probability notifier
(src/config.py and src/trading_bot.py) and proofs about its
fetch-filter-rank-notify pipeline.

Conventions of the embedding:
* Python dict payloads are modelled as structures whose optional keys are
  Option fields; a `.get(key, default)` in the source becomes `.getD default`
  at the use site.
* Integer cents and volumes are Int; Python floats (hours, ROI percent) are
  modelled as exact rationals (Rat).
* The wall clock is passed explicitly: `now_ts` is the value of
  `int(time.time())` taken at the top of the filter.
-/

namespace KalshiNotifier

/-! ### String helpers (structural, over List Char) -/

/-- Python `ts.replace("Z", "+00:00")`: replace every occurrence of the
one-character pattern, scanning left to right. -/
def replaceZ : List Char → List Char
  | [] => []
  | c :: rest =>
    if c = 'Z' then '+' :: '0' :: '0' :: ':' :: '0' :: '0' :: replaceZ rest
    else c :: replaceZ rest

/-- Python `ts.endswith("Z")`. -/
def endsWithZ (cs : List Char) : Bool := cs.getLast? = some 'Z'

/-- Python `str.lower()` / `Char` case folding restricted to ASCII, which is
the alphabet of Kalshi tickers. -/
def lowerChars (cs : List Char) : List Char := cs.map Char.toLower

/-- Python `ticker.rsplit("-", 1)[0]`: everything before the last dash, or
the whole string when there is no dash. -/
def rsplitLastDash (cs : List Char) : List Char :=
  if cs.contains '-' then ((cs.reverse.dropWhile (fun c => c != '-')).drop 1).reverse
  else cs

/-! ### Timestamp parsing

`SimpleTradingBot._parse_kalshi_timestamp` (src/trading_bot.py lines 388-400)
delegates to the standard library's `datetime.fromisoformat` after replacing a
trailing "Z" with "+00:00"; naive results are reinterpreted as UTC and the
epoch value is returned, any parse error yielding None.  We model
`fromisoformat` on the ISO-8601 profile the Kalshi API emits:
`YYYY-MM-DD[THH:MM[:SS]][(+|-)HH:MM]` with range-checked fields. -/

/-- Parse exactly `n` decimal digits, returning their value and the rest. -/
def parseNDigits : Nat → List Char → Option (Nat × List Char)
  | 0, cs => some (0, cs)
  | _ + 1, [] => none
  | n + 1, c :: cs =>
    if c.isDigit then
      match parseNDigits n cs with
      | some (v, rest) => some ((c.toNat - 48) * 10 ^ n + v, rest)
      | none => none
    else none

/-- Consume one expected character. -/
def parseChar (ch : Char) : List Char → Option (List Char)
  | [] => none
  | c :: cs => if c = ch then some cs else none

/-- Gregorian leap-year rule, as used by `datetime`. -/
def isLeapYear (y : Nat) : Bool := y % 4 == 0 && (y % 100 != 0 || y % 400 == 0)

/-- Number of days in a month of a given year. -/
def daysInMonth (y m : Nat) : Nat :=
  if m = 2 then (if isLeapYear y then 29 else 28)
  else if m = 4 ∨ m = 6 ∨ m = 9 ∨ m = 11 then 30
  else 31

/-- Days between 1970-01-01 and y-m-d in the proleptic Gregorian calendar
(the civil-from-days algorithm used by every epoch conversion); valid for
`1 ≤ y`, `1 ≤ m ≤ 12`, `1 ≤ d`. -/
def daysFromCivil (y m d : Nat) : Int :=
  let y2 := if m ≤ 2 then y - 1 else y
  let era := y2 / 400
  let yoe := y2 - era * 400
  let mp := (m + 9) % 12
  let doy := (153 * mp + 2) / 5 + d - 1
  let doe := yoe * 365 + yoe / 4 - yoe / 100 + doy
  (era * 146097 + doe : Int) - 719468

/-- Fields of a parsed `datetime`; the timezone is an offset in minutes,
absent for a naive timestamp. -/
structure PyDateTime where
  year : Nat
  month : Nat
  day : Nat
  hour : Nat
  minute : Nat
  second : Nat
  tzOffsetMinutes : Option Int
deriving DecidableEq, Repr

/-- Model of `datetime.fromisoformat` on the profile described above:
`none` exactly when the characters do not match the grammar or a field is
out of range. -/
def fromisoformat (cs : List Char) : Option PyDateTime := do
  let (y, cs) ← parseNDigits 4 cs
  let cs ← parseChar '-' cs
  let (mo, cs) ← parseNDigits 2 cs
  let cs ← parseChar '-' cs
  let (d, cs) ← parseNDigits 2 cs
  let (h, mi, s, cs) ←
    match cs with
    | 'T' :: cs2 => do
      let (h, cs3) ← parseNDigits 2 cs2
      let cs4 ← parseChar ':' cs3
      let (mi, cs5) ← parseNDigits 2 cs4
      match cs5 with
      | ':' :: cs6 => do
        let (s, cs7) ← parseNDigits 2 cs6
        pure (h, mi, s, cs7)
      | _ => pure (h, mi, 0, cs5)
    | _ => pure (0, 0, 0, cs)
  let (off, cs) ←
    match cs with
    | '+' :: cs2 => do
      let (oh, cs3) ← parseNDigits 2 cs2
      let cs4 ← parseChar ':' cs3
      let (om, cs5) ← parseNDigits 2 cs4
      if oh ≤ 23 && om ≤ 59 then pure (some ((oh : Int) * 60 + om), cs5) else none
    | '-' :: cs2 => do
      let (oh, cs3) ← parseNDigits 2 cs2
      let cs4 ← parseChar ':' cs3
      let (om, cs5) ← parseNDigits 2 cs4
      if oh ≤ 23 && om ≤ 59 then pure (some (-((oh : Int) * 60 + om)), cs5) else none
    | _ => pure (none, cs)
  match cs with
  | [] =>
    if 1 ≤ y && y ≤ 9999 && 1 ≤ mo && mo ≤ 12 && 1 ≤ d && d ≤ daysInMonth y mo
        && h ≤ 23 && mi ≤ 59 && s ≤ 59 then
      some ⟨y, mo, d, h, mi, s, off⟩
    else none
  | _ => none

/-- Embedding of `SimpleTradingBot._parse_kalshi_timestamp`
(src/trading_bot.py lines 388-400): `if not ts: return None`; a trailing
"Z" is rewritten to "+00:00"; a naive datetime is given UTC; the result is
the integer epoch timestamp; any failure returns None. -/
def parse_kalshi_timestamp (ts : Option String) : Option Int :=
  match ts with
  | none => none
  | some t =>
    if t = "" then none
    else
      let cs := t.data
      let cs := if endsWithZ cs then replaceZ cs else cs
      match fromisoformat cs with
      | none => none
      | some dt =>
        let offMin : Int := dt.tzOffsetMinutes.getD 0
        some (86400 * daysFromCivil dt.year dt.month dt.day
          + 3600 * (dt.hour : Int) + 60 * (dt.minute : Int) + (dt.second : Int)
          - 60 * offMin)

/-! ### Data model -/

/-- Raw event payload fields read by the filter (`event.get("title", "N/A")`,
`event.get("volume_24h", 0)`). -/
structure Event where
  title : Option String
  volume_24h : Option Int
deriving DecidableEq, Repr

/-- A normalized market summary, the dict built by
`get_markets_for_events` (src/trading_bot.py lines 108-118).  Every key is
present with its default already applied; `yes_sub_title` is read by the
filter with `.get` and is never set by the normalizer, hence Option. -/
structure MarketSummary where
  ticker : String
  title : String
  subtitle : String
  yes_sub_title : Option String
  volume : Int
  volume_24h : Int
  close_time : String
deriving DecidableEq, Repr

/-- The per-event entry of the normalized mapping:
`{"event": event, "markets": top_markets}`. -/
structure EventData where
  event : Event
  markets : List MarketSummary
deriving DecidableEq, Repr

/-- An order-book snapshot, the dict returned by
`get_market_with_odds`; prices may be absent. -/
structure Odds where
  yes_bid : Option Int
  yes_ask : Option Int
  close_time : Option String
  volume : Option Int
deriving DecidableEq, Repr

/-- The configuration scalars the pipeline reads (src/config.py lines
63-77). -/
structure BotConfig where
  max_hours_to_close : Rat
  min_yes_price_cents : Int
  min_spread_cents : Int
  max_yes_ask_cents : Int
  min_volume_24h : Int
  max_notifications_per_run : Int
deriving DecidableEq, Repr

/-- A qualified market, the dict appended at src/trading_bot.py lines
233-252. -/
structure Candidate where
  ticker : String
  ticker_base : String
  event_ticker : String
  event_slug : String
  event_title : String
  market_title : String
  market_subtitle : String
  yes_bid : Int
  yes_ask : Int
  spread : Int
  hours_to_close : Option Rat
  close_ts : Int
  event_volume_24h : Int
  market_volume : Int
  roi_cents : Int
  roi_pct : Rat
deriving DecidableEq, Repr

/-- The five rejection counters (src/trading_bot.py lines 175-181). -/
structure RejectionTally where
  no_odds : Nat
  price : Nat
  spread : Nat
  expiration : Nat
  volume : Nat
deriving DecidableEq, Repr

/-- The tally all of whose counters are zero. -/
def RejectionTally.zero : RejectionTally := ⟨0, 0, 0, 0, 0⟩

/-- Sum of the five counters. -/
def RejectionTally.sum (t : RejectionTally) : Nat :=
  t.no_odds + t.price + t.spread + t.expiration + t.volume

/-- Python dict lookup `market_odds.get(ticker)` over an insertion-ordered
association list. -/
def lookupOdds (m : List (String × Odds)) (t : String) : Option Odds :=
  (m.find? (fun p => p.1 == t)).map (fun p => p.2)

/-! ### Small helpers of the filter -/

/-- Embedding of `SimpleTradingBot._event_slug` (src/trading_bot.py lines
402-410): lower-case the event ticker and strip a trailing
`-(\d\d[a-z][a-z][a-z]\d\d)` date suffix; empty input gives "market". -/
def event_slug_of (event_ticker : String) : String :=
  if event_ticker = "" then "market"
  else
    let slug := lowerChars event_ticker.data
    let r := slug.reverse
    match r with
    | d2 :: d1 :: a3 :: a2 :: a1 :: e2 :: e1 :: dash :: _ =>
      if d2.isDigit && d1.isDigit && a3.isLower && a2.isLower && a1.isLower
          && e2.isDigit && e1.isDigit && dash = '-' then
        String.mk (r.drop 8).reverse
      else String.mk slug
    | _ => String.mk slug

/-- `ticker.rsplit("-", 1)[0].lower()` (src/trading_bot.py line 230). -/
def ticker_base_of (ticker : String) : String :=
  String.mk (lowerChars (rsplitLastDash ticker.data))

/-- Embedding of `SimpleTradingBot._hours_until` (src/trading_bot.py lines
382-386) with the run's clock passed explicitly. -/
def hours_until (now_ts : Int) (close_ts : Option Int) : Option Rat :=
  match close_ts with
  | none => none
  | some c => some (((c - now_ts : Int) : Rat) / 3600)

/-- Python `int(x)` on a rational: truncation toward zero. -/
def ratTrunc (q : Rat) : Int := q.num / (q.den : Int)

/-- The bound `self.max_close_ts or (now_ts + int(self.config.max_hours_to_close
* 3600))` of src/trading_bot.py line 172; Python `or` falls through on 0 as
well as None. -/
def computeMaxCloseTs (max_close_ts : Option Int) (now_ts : Int) (cfg : BotConfig) : Int :=
  match max_close_ts with
  | some v => if v ≠ 0 then v else now_ts + ratTrunc (cfg.max_hours_to_close * 3600)
  | none => now_ts + ratTrunc (cfg.max_hours_to_close * 3600)

/-! ### The per-market decision chain -/

/-- Exactly what the inner loop of `filter_high_probability_markets` does
with one market: skip it, count it in one rejection bucket, drop it
silently, or emit a Candidate. -/
inductive MarketOutcome where
  | noTicker
  | rejNoOdds
  | silentDrop
  | rejPrice
  | rejSpread
  | rejExpiration
  | rejVolume
  | accepted (c : Candidate)
deriving DecidableEq, Repr

/-- The close-time string handed to the parser at src/trading_bot.py line
210: `odds.get("close_time") or market.get("close_time")`, Python `or`
falling through on None and on the empty string. -/
def close_time_source (o : Odds) (m : MarketSummary) : Option String :=
  match o.close_time with
  | some s => if s ≠ "" then some s else some m.close_time
  | none => some m.close_time

/-- The loop body of `filter_high_probability_markets`
(src/trading_bot.py lines 187-252), one market of one event.  Note the
untallied `continue` at lines 199-200 when an odds entry lacks a price:
that is `silentDrop`. -/
def classify_market (cfg : BotConfig) (now_ts max_close_ts : Int)
    (market_odds : List (String × Odds)) (event_ticker : String) (event : Event)
    (market : MarketSummary) : MarketOutcome :=
  let ticker := market.ticker
  if ticker = "" then .noTicker
  else
    match lookupOdds market_odds ticker with
    | none => .rejNoOdds
    | some odds =>
      match odds.yes_bid, odds.yes_ask with
      | none, _ => .silentDrop
      | some _, none => .silentDrop
      | some yes_bid, some yes_ask =>
        if yes_bid < cfg.min_yes_price_cents then .rejPrice
        else
          let spread := yes_ask - yes_bid
          if spread < cfg.min_spread_cents then .rejSpread
          else
            match parse_kalshi_timestamp (close_time_source odds market) with
            | none => .rejExpiration
            | some close_ts =>
              if close_ts ≤ now_ts then .rejExpiration
              else if max_close_ts ≠ 0 ∧ max_close_ts < close_ts then .rejExpiration
              else
                let hours_to_close := hours_until now_ts (some close_ts)
                let market_volume :=
                  max (max market.volume_24h market.volume) ((odds.volume).getD 0)
                let event_volume := (event.volume_24h).getD 0
                if max event_volume market_volume < cfg.min_volume_24h then .rejVolume
                else
                  let roi_cents := max 0 (100 - yes_bid)
                  let roi_pct : Rat :=
                    if yes_bid ≠ 0 then (roi_cents : Rat) / (yes_bid : Rat) * 100 else 0
                  let market_subtitle :=
                    if market.subtitle ≠ "" then market.subtitle
                    else
                      match market.yes_sub_title with
                      | some s => if s ≠ "" then s else ""
                      | none => ""
                  .accepted
                    { ticker := ticker
                      ticker_base := ticker_base_of ticker
                      event_ticker := event_ticker
                      event_slug := event_slug_of event_ticker
                      event_title := (event.title).getD "N/A"
                      market_title := market.title
                      market_subtitle := market_subtitle
                      yes_bid := yes_bid
                      yes_ask := yes_ask
                      spread := spread
                      hours_to_close := hours_to_close
                      close_ts := close_ts
                      event_volume_24h := event_volume
                      market_volume := market_volume
                      roi_cents := roi_cents
                      roi_pct := roi_pct }

/-- Fold one outcome into the accumulated (results, tally) pair: each
rejection bumps exactly one counter, an accepted market is appended to the
results, the others leave everything unchanged. -/
def stepMarket (acc : List Candidate × RejectionTally) (o : MarketOutcome) :
    List Candidate × RejectionTally :=
  match o with
  | .noTicker => acc
  | .silentDrop => acc
  | .rejNoOdds => (acc.1, { acc.2 with no_odds := acc.2.no_odds + 1 })
  | .rejPrice => (acc.1, { acc.2 with price := acc.2.price + 1 })
  | .rejSpread => (acc.1, { acc.2 with spread := acc.2.spread + 1 })
  | .rejExpiration => (acc.1, { acc.2 with expiration := acc.2.expiration + 1 })
  | .rejVolume => (acc.1, { acc.2 with volume := acc.2.volume + 1 })
  | .accepted c => (acc.1 ++ [c], acc.2)

/-- The (event, market) pairs in the iteration order of the two nested
loops at src/trading_bot.py lines 183-187. -/
def marketsOf (event_markets : List (String × EventData)) :
    List (String × Event × MarketSummary) :=
  event_markets.flatMap (fun p => p.2.markets.map (fun m => (p.1, p.2.event, m)))

/-- `total_markets` of src/trading_bot.py line 174: every market of every
event, whether or not it has a ticker. -/
def total_markets (event_markets : List (String × EventData)) : Nat :=
  (event_markets.map (fun p => p.2.markets.length)).sum

/-! ### The ranker -/

/-- Python sorts by the key `(-roi_pct, hours_to_close if not None else inf)`
ascending (src/trading_bot.py lines 254-259), so descending ROI percent, and
unknown hours sort last; `list.sort` is stable, which we model by decorating
each candidate with its position and sorting by the strict total
lexicographic order (dual ROI, hours with None as top, position).
`hoursTop` is the hours component: an absent value is the top element. -/
def hoursTop (x : Option Rat) : WithTop Rat := x

def rankKey (p : Nat × Candidate) : Ratᵒᵈ ×ₗ ((WithTop Rat) ×ₗ Nat) :=
  toLex (OrderDual.toDual p.2.roi_pct, toLex (hoursTop p.2.hours_to_close, p.1))

/-- The sorting relation of the decorated list. -/
def rankRel (p q : Nat × Candidate) : Prop := rankKey p ≤ rankKey q

instance rankRel.decidable : DecidableRel rankRel := fun p q =>
  inferInstanceAs (Decidable (rankKey p ≤ rankKey q))

instance rankRel.total : IsTotal (Nat × Candidate) rankRel :=
  ⟨fun p q => le_total (rankKey p) (rankKey q)⟩

instance rankRel.trans : IsTrans (Nat × Candidate) rankRel :=
  ⟨fun _ _ _ h1 h2 => le_trans h1 h2⟩

/-- `results.sort(key=...)` of src/trading_bot.py lines 254-259. -/
def rank (l : List Candidate) : List Candidate :=
  ((l.enum).insertionSort rankRel).map Prod.snd

/-! ### The qualification filter -/

/-- One iteration of the market loop: classify the (event, market) pair and
fold the outcome into the accumulator. -/
def filterStep (cfg : BotConfig) (now_ts max_close_ts : Int)
    (market_odds : List (String × Odds))
    (acc : List Candidate × RejectionTally) (p : String × Event × MarketSummary) :
    List Candidate × RejectionTally :=
  stepMarket acc (classify_market cfg now_ts max_close_ts market_odds p.1 p.2.1 p.2.2)

/-- Embedding of `SimpleTradingBot.filter_high_probability_markets`
(src/trading_bot.py lines 162-268), returning the ranked candidates
together with the rejection tally the source accumulates for its summary
line.  `max_close_ts_init` is `self.max_close_ts` at call time; `now_ts`
is `int(time.time())`. -/
def filter_high_probability_markets (cfg : BotConfig) (max_close_ts_init : Option Int)
    (event_markets : List (String × EventData)) (market_odds : List (String × Odds))
    (now_ts : Int) : List Candidate × RejectionTally :=
  let max_close_ts := computeMaxCloseTs max_close_ts_init now_ts cfg
  let res := (marketsOf event_markets).foldl
    (filterStep cfg now_ts max_close_ts market_odds) ([], RejectionTally.zero)
  (rank res.1, res.2)

/-- Markets bearing a ticker, the population the rejection tally and the
candidate list draw from (markets with a falsy ticker are skipped by the
`continue` at src/trading_bot.py line 190). -/
def tickered_market_count (event_markets : List (String × EventData)) : Nat :=
  (marketsOf event_markets).countP (fun p => decide (p.2.2.ticker ≠ ""))

/-- Markets dropped by the untallied `continue` at src/trading_bot.py lines
199-200: an odds entry is present but yes_bid or yes_ask is absent. -/
def silent_drop_count (cfg : BotConfig) (max_close_ts_init : Option Int)
    (event_markets : List (String × EventData)) (market_odds : List (String × Odds))
    (now_ts : Int) : Nat :=
  let max_close_ts := computeMaxCloseTs max_close_ts_init now_ts cfg
  (marketsOf event_markets).countP
    (fun p => decide (classify_market cfg now_ts max_close_ts market_odds p.1 p.2.1 p.2.2
      = .silentDrop))

/-! ### The odds fetcher -/

/-- Ticker collection of `get_market_odds` (src/trading_bot.py lines
132-137): every truthy ticker of every market, in iteration order. -/
def collect_tickers (event_markets : List (String × EventData)) : List String :=
  ((marketsOf event_markets).map (fun p => p.2.2.ticker)).filter (fun t => t != "")

/-- Python dict assignment `market_odds[ticker] = result`: overwrite an
existing key in place, else append. -/
def dictInsert (m : List (String × Odds)) (k : String) (v : Odds) : List (String × Odds) :=
  if m.any (fun p => p.1 == k) then m.map (fun p => if p.1 == k then (k, v) else p)
  else m ++ [(k, v)]

/-- Embedding of `SimpleTradingBot.get_market_odds` (src/trading_bot.py
lines 129-160).  `fetch t` is the settled result of
`get_market_with_odds(t)`: `none` when the call raised or returned a falsy
payload (`isinstance(result, Exception) or not result`), in which case the
ticker is skipped; otherwise the snapshot is stored.  The batching in
groups of 20 with a pause only schedules these same per-ticker results and
pairs each result with its own ticker, so the resulting map is the
sequential fold over the ticker list.  `oddsStep` is the per-ticker
disposition at lines 151-155: a raised or falsy result is skipped,
otherwise the snapshot is stored under its ticker. -/
def oddsStep (fetch : String → Option Odds) (acc : List (String × Odds)) (t : String) :
    List (String × Odds) :=
  match fetch t with
  | none => acc
  | some o => dictInsert acc t o

def get_market_odds (fetch : String → Option Odds)
    (event_markets : List (String × EventData)) : List (String × Odds) :=
  (collect_tickers event_markets).foldl (oddsStep fetch) []

/-- The orchestrator guard at src/trading_bot.py lines 453-455: the run is
cut short exactly when the odds map is empty. -/
def run_aborts_after_odds (market_odds : List (String × Odds)) : Bool :=
  market_odds.isEmpty

/-! ### The notifier -/

/-- The dedup key of src/trading_bot.py line 320:
`(market.get("event_ticker"), market.get("market_subtitle") or market["ticker"])`. -/
def dedup_key (c : Candidate) : String × String :=
  (c.event_ticker, if c.market_subtitle ≠ "" then c.market_subtitle else c.ticker)

/-- The loop of `send_telegram_notifications` (src/trading_bot.py lines
319-338), recorded as the trace of delivery attempts
(position in the ranked list, dedup key, success?).  The key is added to
`seen` before the delivery is tried; `sent` grows only on success and the
loop breaks as soon as `sent >= top_n` after a success.  `sendOk pos` is
whether the delivery attempted for the candidate at `pos` succeeds. -/
def notifyLoop (top_n : Int) (sendOk : Nat → Bool) :
    List Candidate → Nat → List (String × String) → Nat →
      List (Nat × (String × String) × Bool)
  | [], _, _, _ => []
  | m :: rest, pos, seen, sent =>
    let key := dedup_key m
    if key ∈ seen then notifyLoop top_n sendOk rest (pos + 1) seen sent
    else
      if sendOk pos then
        if top_n ≤ (sent + 1 : Int) then [(pos, key, true)]
        else (pos, key, true) :: notifyLoop top_n sendOk rest (pos + 1) (key :: seen) (sent + 1)
      else (pos, key, false) :: notifyLoop top_n sendOk rest (pos + 1) (key :: seen) sent

/-- Embedding of `SimpleTradingBot.send_telegram_notifications`
(src/trading_bot.py lines 307-338) as its trace of delivery attempts.
`configured` is `telegram_bot and telegram_chat_id`; with it false, or with
no candidates, the stage is a no-op.  `top_n = min(len(markets),
max_notifications_per_run)`. -/
def send_telegram_notifications (cfg : BotConfig) (configured : Bool)
    (sendOk : Nat → Bool) (markets : List Candidate) :
    List (Nat × (String × String) × Bool) :=
  if ¬ configured then []
  else if markets = [] then []
  else
    let top_n : Int := min (markets.length : Int) cfg.max_notifications_per_run
    notifyLoop top_n sendOk markets 0 [] 0

/-- Number of successful sends in a trace (the final value of `sent`). -/
def successCount (att : List (Nat × (String × String) × Bool)) : Nat :=
  (att.filter (fun e => e.2.2)).length

/-! ### Characterization of the decision chain

One lemma per outcome: a market lands in a bucket exactly when it passes
every earlier predicate of the fixed order (existence, price, spread,
expiration, volume) and fails that bucket's predicate. -/

lemma classify_eq_noTicker_iff (cfg : BotConfig) (now_ts max_close_ts : Int)
    (odds : List (String × Odds)) (et : String) (ev : Event) (m : MarketSummary) :
    classify_market cfg now_ts max_close_ts odds et ev m = .noTicker ↔ m.ticker = "" := by
  by_cases ht : m.ticker = ""
  · simp [classify_market, ht]
  · simp only [classify_market, ht, if_false]
    constructor
    · intro h
      exfalso
      revert h
      repeat' split
      all_goals simp_all
    · intro h; exact h.elim

lemma classify_eq_rejNoOdds_iff (cfg : BotConfig) (now_ts max_close_ts : Int)
    (odds : List (String × Odds)) (et : String) (ev : Event) (m : MarketSummary) :
    classify_market cfg now_ts max_close_ts odds et ev m = .rejNoOdds
      ↔ m.ticker ≠ "" ∧ lookupOdds odds m.ticker = none := by
  by_cases ht : m.ticker = ""
  · simp [classify_market, ht]
  · simp only [classify_market, ht, if_false, ne_eq, not_false_iff, true_and]
    rcases hl : lookupOdds odds m.ticker with _ | o
    · simp
    · simp only [hl]
      constructor
      · intro h
        exfalso
        revert h
        repeat' split
        all_goals simp_all
      · intro h; simp at h

lemma classify_eq_silentDrop_iff (cfg : BotConfig) (now_ts max_close_ts : Int)
    (odds : List (String × Odds)) (et : String) (ev : Event) (m : MarketSummary) :
    classify_market cfg now_ts max_close_ts odds et ev m = .silentDrop
      ↔ m.ticker ≠ "" ∧ ∃ o, lookupOdds odds m.ticker = some o
          ∧ (o.yes_bid = none ∨ o.yes_ask = none) := by
  by_cases ht : m.ticker = ""
  · simp [classify_market, ht]
  · simp only [classify_market, ht, if_false, ne_eq, not_false_iff, true_and]
    rcases hl : lookupOdds odds m.ticker with _ | o
    · simp
    · simp only [hl, Option.some.injEq]
      constructor
      · intro h
        refine ⟨o, rfl, ?_⟩
        revert h
        rcases hb : o.yes_bid with _ | b
        · simp
        · rcases ha : o.yes_ask with _ | a
          · simp
          · simp only [hb, ha]
            intro h
            exfalso
            revert h
            repeat' split
            all_goals simp_all
      · rintro ⟨o2, rfl, hcase⟩
        rcases hcase with hb | ha
        · simp [hb]
        · rcases hb : o.yes_bid with _ | b
          · simp [hb]
          · simp [hb, ha]

lemma classify_eq_rejPrice_iff (cfg : BotConfig) (now_ts max_close_ts : Int)
    (odds : List (String × Odds)) (et : String) (ev : Event) (m : MarketSummary) :
    classify_market cfg now_ts max_close_ts odds et ev m = .rejPrice
      ↔ m.ticker ≠ "" ∧ ∃ o b a, lookupOdds odds m.ticker = some o
          ∧ o.yes_bid = some b ∧ o.yes_ask = some a
          ∧ b < cfg.min_yes_price_cents := by
  by_cases ht : m.ticker = ""
  · simp [classify_market, ht]
  · simp only [classify_market, ht, if_false, ne_eq, not_false_iff, true_and]
    rcases hl : lookupOdds odds m.ticker with _ | o
    · simp
    · rcases hb : o.yes_bid with _ | b
      · simp [hb]
      · rcases ha : o.yes_ask with _ | a
        · simp [hb, ha]
        · simp only [hl, hb, ha, Option.some.injEq]
          by_cases hp : b < cfg.min_yes_price_cents
          · simp only [hp, if_true]
            constructor
            · intro _
              exact ⟨o, b, a, rfl, hb, ha, hp⟩
            · intro _; trivial
          · simp only [hp, if_false]
            constructor
            · intro h
              exfalso
              revert h
              repeat' split
              all_goals simp_all
            · rintro ⟨o2, b2, a2, rfl, hb2, ha2, hlt⟩
              exfalso
              rw [hb] at hb2
              injection hb2 with hbb
              exact hp (hbb ▸ hlt)

lemma classify_eq_rejSpread_iff (cfg : BotConfig) (now_ts max_close_ts : Int)
    (odds : List (String × Odds)) (et : String) (ev : Event) (m : MarketSummary) :
    classify_market cfg now_ts max_close_ts odds et ev m = .rejSpread
      ↔ m.ticker ≠ "" ∧ ∃ o b a, lookupOdds odds m.ticker = some o
          ∧ o.yes_bid = some b ∧ o.yes_ask = some a
          ∧ ¬ b < cfg.min_yes_price_cents
          ∧ a - b < cfg.min_spread_cents := by
  by_cases ht : m.ticker = ""
  · simp [classify_market, ht]
  · simp only [classify_market, ht, if_false, ne_eq, not_false_iff, true_and]
    rcases hl : lookupOdds odds m.ticker with _ | o
    · simp
    · rcases hb : o.yes_bid with _ | b
      · simp [hb]
      · rcases ha : o.yes_ask with _ | a
        · simp [hb, ha]
        · simp only [hl, hb, ha, Option.some.injEq]
          by_cases hp : b < cfg.min_yes_price_cents
          · simp only [hp, if_true]
            constructor
            · intro h; exact absurd h (by simp)
            · rintro ⟨o2, b2, a2, rfl, hb2, ha2, hge, hlt⟩
              exfalso
              rw [hb] at hb2
              injection hb2 with hbb
              exact hge (hbb ▸ hp)
          · by_cases hs : a - b < cfg.min_spread_cents
            · simp only [hp, hs, if_false, if_true]
              constructor
              · intro _
                exact ⟨o, b, a, rfl, hb, ha, hp, hs⟩
              · intro _; trivial
            · simp only [hp, hs, if_false]
              constructor
              · intro h
                exfalso
                revert h
                repeat' split
                all_goals simp_all
              · rintro ⟨o2, b2, a2, rfl, hb2, ha2, hge, hlt⟩
                exfalso
                rw [hb] at hb2
                rw [ha] at ha2
                injection hb2 with hbb
                injection ha2 with haa
                rw [hbb, haa] at hs
                exact hs hlt

lemma classify_eq_rejExpiration_iff (cfg : BotConfig) (now_ts max_close_ts : Int)
    (odds : List (String × Odds)) (et : String) (ev : Event) (m : MarketSummary) :
    classify_market cfg now_ts max_close_ts odds et ev m = .rejExpiration
      ↔ m.ticker ≠ "" ∧ ∃ o b a, lookupOdds odds m.ticker = some o
          ∧ o.yes_bid = some b ∧ o.yes_ask = some a
          ∧ ¬ b < cfg.min_yes_price_cents
          ∧ ¬ a - b < cfg.min_spread_cents
          ∧ (parse_kalshi_timestamp (close_time_source o m) = none
              ∨ ∃ ct, parse_kalshi_timestamp (close_time_source o m) = some ct
                  ∧ (ct ≤ now_ts ∨ (max_close_ts ≠ 0 ∧ max_close_ts < ct))) := by
  by_cases ht : m.ticker = ""
  · simp [classify_market, ht]
  · simp only [classify_market, ht, if_false, ne_eq, not_false_iff, true_and]
    rcases hl : lookupOdds odds m.ticker with _ | o
    · simp
    · rcases hb : o.yes_bid with _ | b
      · simp [hb]
      · rcases ha : o.yes_ask with _ | a
        · simp [hb, ha]
        · simp only [hl, hb, ha, Option.some.injEq]
          by_cases hp : b < cfg.min_yes_price_cents
          · simp only [hp, if_true]
            constructor
            · intro h; exact absurd h (by simp)
            · rintro ⟨o2, b2, a2, rfl, hb2, ha2, hge, _⟩
              rw [hb] at hb2
              injection hb2 with hbb
              exact absurd (hbb ▸ hp) hge
          · by_cases hs : a - b < cfg.min_spread_cents
            · simp only [hp, hs, if_false, if_true]
              constructor
              · intro h; exact absurd h (by simp)
              · rintro ⟨o2, b2, a2, rfl, hb2, ha2, hge, hsge, _⟩
                rw [hb] at hb2; rw [ha] at ha2
                injection hb2 with hbb; injection ha2 with haa
                exact absurd ((hbb ▸ haa ▸ hs : a2 - b2 < _)) hsge
            · rcases hct : parse_kalshi_timestamp (close_time_source o m) with _ | ct
              · simp only [hp, hs, hct, if_false]
                constructor
                · intro _
                  exact ⟨o, b, a, rfl, hb, ha, hp, hs, Or.inl hct⟩
                · intro _; trivial
              · simp only [hp, hs, hct, if_false]
                by_cases he1 : ct ≤ now_ts
                · simp only [he1, if_true]
                  constructor
                  · intro _
                    exact ⟨o, b, a, rfl, hb, ha, hp, hs, Or.inr ⟨ct, hct, Or.inl he1⟩⟩
                  · intro _; trivial
                · by_cases he2 : max_close_ts ≠ 0 ∧ max_close_ts < ct
                  · rw [if_neg he1, if_pos he2]
                    constructor
                    · intro _
                      exact ⟨o, b, a, rfl, hb, ha, hp, hs, Or.inr ⟨ct, hct, Or.inr he2⟩⟩
                    · intro _; rfl
                  · rw [if_neg he1, if_neg he2]
                    constructor
                    · intro h
                      exfalso
                      revert h
                      repeat' split
                      all_goals simp_all
                    · rintro ⟨o2, b2, a2, rfl, hb2, ha2, hge, hsge, hcase⟩
                      exfalso
                      rcases hcase with hnone | ⟨ct2, hct2, hbad⟩
                      · rw [hct] at hnone; exact Option.noConfusion hnone
                      · rw [hct] at hct2
                        injection hct2 with hcc
                        rcases hbad with h1 | h2
                        · exact he1 (hcc ▸ h1)
                        · exact he2 (hcc ▸ h2)

lemma classify_eq_rejVolume_iff (cfg : BotConfig) (now_ts max_close_ts : Int)
    (odds : List (String × Odds)) (et : String) (ev : Event) (m : MarketSummary) :
    classify_market cfg now_ts max_close_ts odds et ev m = .rejVolume
      ↔ m.ticker ≠ "" ∧ ∃ o b a, lookupOdds odds m.ticker = some o
          ∧ o.yes_bid = some b ∧ o.yes_ask = some a
          ∧ ¬ b < cfg.min_yes_price_cents
          ∧ ¬ a - b < cfg.min_spread_cents
          ∧ ∃ ct, parse_kalshi_timestamp (close_time_source o m) = some ct
              ∧ ¬ ct ≤ now_ts
              ∧ ¬ (max_close_ts ≠ 0 ∧ max_close_ts < ct)
              ∧ max ((ev.volume_24h).getD 0)
                  (max (max m.volume_24h m.volume) ((o.volume).getD 0))
                  < cfg.min_volume_24h := by
  by_cases ht : m.ticker = ""
  · simp [classify_market, ht]
  · simp only [classify_market, ht, if_false, ne_eq, not_false_iff, true_and]
    rcases hl : lookupOdds odds m.ticker with _ | o
    · simp
    · rcases hb : o.yes_bid with _ | b
      · simp [hb]
      · rcases ha : o.yes_ask with _ | a
        · simp [hb, ha]
        · simp only [hl, hb, ha, Option.some.injEq]
          by_cases hp : b < cfg.min_yes_price_cents
          · rw [if_pos hp]
            constructor
            · intro h; exact absurd h (by simp)
            · rintro ⟨o2, b2, a2, rfl, hb2, ha2, hge, _⟩
              rw [hb] at hb2
              injection hb2 with hbb
              exact absurd (hbb ▸ hp) hge
          · by_cases hs : a - b < cfg.min_spread_cents
            · rw [if_neg hp, if_pos hs]
              constructor
              · intro h; exact absurd h (by simp)
              · rintro ⟨o2, b2, a2, rfl, hb2, ha2, hge, hsge, _⟩
                rw [hb] at hb2; rw [ha] at ha2
                injection hb2 with hbb; injection ha2 with haa
                exact absurd ((hbb ▸ haa ▸ hs : a2 - b2 < _)) hsge
            · rcases hct : parse_kalshi_timestamp (close_time_source o m) with _ | ct
              · rw [if_neg hp, if_neg hs]
                simp only [hct]
                constructor
                · intro h; exact absurd h (by simp)
                · rintro ⟨o2, b2, a2, rfl, hb2, ha2, hge, hsge, ct2, hct2, _⟩
                  rw [hct] at hct2; exact Option.noConfusion hct2
              · rw [if_neg hp, if_neg hs]
                simp only [hct]
                by_cases he1 : ct ≤ now_ts
                · rw [if_pos he1]
                  constructor
                  · intro h; exact absurd h (by simp)
                  · rintro ⟨o2, b2, a2, rfl, hb2, ha2, hge, hsge, ct2, hct2, hn, _⟩
                    rw [hct] at hct2
                    injection hct2 with hcc
                    exact absurd (hcc ▸ he1) hn
                · by_cases he2 : max_close_ts ≠ 0 ∧ max_close_ts < ct
                  · rw [if_neg he1, if_pos he2]
                    constructor
                    · intro h; exact absurd h (by simp)
                    · rintro ⟨o2, b2, a2, rfl, hb2, ha2, hge, hsge, ct2, hct2, hn, hn2, _⟩
                      rw [hct] at hct2
                      injection hct2 with hcc
                      exact absurd (hcc ▸ he2) hn2
                  · rw [if_neg he1, if_neg he2]
                    by_cases hv : max ((ev.volume_24h).getD 0)
                        (max (max m.volume_24h m.volume) ((o.volume).getD 0))
                        < cfg.min_volume_24h
                    · rw [if_pos hv]
                      constructor
                      · intro _
                        exact ⟨o, b, a, rfl, hb, ha, hp, hs, ct, hct, he1, he2, hv⟩
                      · intro _; rfl
                    · rw [if_neg hv]
                      constructor
                      · intro h
                        exfalso
                        revert h
                        repeat' split
                        all_goals simp_all
                      · rintro ⟨o2, b2, a2, rfl, hb2, ha2, hge, hsge, ct2, hct2, hn, hn2, hvol⟩
                        exact absurd hvol hv

lemma classify_accepted_inversion (cfg : BotConfig) (now_ts max_close_ts : Int)
    (odds : List (String × Odds)) (et : String) (ev : Event) (m : MarketSummary)
    (c : Candidate)
    (h : classify_market cfg now_ts max_close_ts odds et ev m = .accepted c) :
    cfg.min_yes_price_cents ≤ c.yes_bid
    ∧ c.spread = c.yes_ask - c.yes_bid
    ∧ cfg.min_spread_cents ≤ c.spread
    ∧ now_ts < c.close_ts
    ∧ (max_close_ts ≠ 0 → c.close_ts ≤ max_close_ts)
    ∧ c.roi_cents = max 0 (100 - c.yes_bid)
    ∧ c.roi_pct = (if c.yes_bid ≠ 0 then (c.roi_cents : Rat) / (c.yes_bid : Rat) * 100 else 0)
    ∧ c.hours_to_close = some (((c.close_ts - now_ts : Int) : Rat) / 3600) := by
  simp only [classify_market] at h
  repeat' split at h
  all_goals try exact MarketOutcome.noConfusion h
  all_goals injection h with hc
  all_goals subst hc
  all_goals dsimp only
  all_goals refine ⟨by omega, rfl, by omega, by omega, by omega, rfl, ?_, rfl⟩
  all_goals first
    | (rw [if_pos (by assumption)]; try rfl)
    | (rw [if_neg (by assumption)]; try rfl)


/-! ### Accounting of the fold -/

/-- Whether an outcome contributes to the tally or to the candidate list. -/
def countsOutcome : MarketOutcome → Bool
  | .noTicker => false
  | .silentDrop => false
  | _ => true

lemma stepMarket_sum_len (acc : List Candidate × RejectionTally) (o : MarketOutcome) :
    (stepMarket acc o).2.sum + (stepMarket acc o).1.length
      = acc.2.sum + acc.1.length + (if countsOutcome o then 1 else 0) := by
  cases o <;> simp [stepMarket, countsOutcome, RejectionTally.sum] <;> omega

lemma foldl_sum_len (cfg : BotConfig) (now_ts max_close_ts : Int)
    (odds : List (String × Odds)) :
    ∀ (pairs : List (String × Event × MarketSummary)) (acc : List Candidate × RejectionTally),
      (pairs.foldl (filterStep cfg now_ts max_close_ts odds) acc).2.sum
        + (pairs.foldl (filterStep cfg now_ts max_close_ts odds) acc).1.length
        = acc.2.sum + acc.1.length
          + pairs.countP
              (fun p => countsOutcome (classify_market cfg now_ts max_close_ts odds p.1 p.2.1 p.2.2)) := by
  intro pairs
  induction pairs with
  | nil => intro acc; simp
  | cons p ps ih =>
    intro acc
    rw [List.foldl_cons, List.countP_cons, ih, filterStep, stepMarket_sum_len]
    omega

lemma counted_silent_tickered (cfg : BotConfig) (now_ts max_close_ts : Int)
    (odds : List (String × Odds)) (p : String × Event × MarketSummary) :
    ((if countsOutcome (classify_market cfg now_ts max_close_ts odds p.1 p.2.1 p.2.2) then 1 else 0) : Nat)
      + (if classify_market cfg now_ts max_close_ts odds p.1 p.2.1 p.2.2 = .silentDrop then 1 else 0)
      = (if p.2.2.ticker ≠ "" then 1 else 0) := by
  by_cases ht : p.2.2.ticker = ""
  · have hcl := (classify_eq_noTicker_iff cfg now_ts max_close_ts odds p.1 p.2.1 p.2.2).mpr ht
    simp [hcl, countsOutcome, ht]
  · rcases hcl : classify_market cfg now_ts max_close_ts odds p.1 p.2.1 p.2.2 with
      _ | _ | _ | _ | _ | _ | _ | c
    · exact absurd ((classify_eq_noTicker_iff cfg now_ts max_close_ts odds p.1 p.2.1 p.2.2).mp hcl) ht
    all_goals simp [countsOutcome, ht]

lemma countP_counted_add_silent (cfg : BotConfig) (now_ts max_close_ts : Int)
    (odds : List (String × Odds)) :
    ∀ pairs : List (String × Event × MarketSummary),
      pairs.countP (fun p => countsOutcome (classify_market cfg now_ts max_close_ts odds p.1 p.2.1 p.2.2))
        + pairs.countP (fun p => decide (classify_market cfg now_ts max_close_ts odds p.1 p.2.1 p.2.2 = .silentDrop))
        = pairs.countP (fun p => decide (p.2.2.ticker ≠ "")) := by
  intro pairs
  induction pairs with
  | nil => simp
  | cons p ps ih =>
    rw [List.countP_cons, List.countP_cons, List.countP_cons]
    have hp := counted_silent_tickered cfg now_ts max_close_ts odds p
    simp only [decide_eq_true_eq] at *
    omega

lemma rank_perm (l : List Candidate) : (rank l).Perm l := by
  have h1 : (List.insertionSort rankRel l.enum).Perm l.enum := List.perm_insertionSort rankRel l.enum
  have h2 := h1.map Prod.snd
  rw [List.enum_map_snd] at h2
  exact h2

lemma rank_length (l : List Candidate) : (rank l).length = l.length :=
  (rank_perm l).length_eq

lemma rank_mem {c : Candidate} {l : List Candidate} : c ∈ rank l ↔ c ∈ l :=
  (rank_perm l).mem_iff

lemma mem_foldl_results (cfg : BotConfig) (now_ts max_close_ts : Int)
    (odds : List (String × Odds)) :
    ∀ (pairs : List (String × Event × MarketSummary)) (acc : List Candidate × RejectionTally)
      (c : Candidate),
      c ∈ (pairs.foldl (filterStep cfg now_ts max_close_ts odds) acc).1 →
      c ∈ acc.1 ∨ ∃ p, p ∈ pairs
        ∧ classify_market cfg now_ts max_close_ts odds p.1 p.2.1 p.2.2 = .accepted c := by
  intro pairs
  induction pairs with
  | nil => intro acc c h; exact Or.inl h
  | cons p ps ih =>
    intro acc c h
    rw [List.foldl_cons] at h
    rcases ih _ c h with hacc | ⟨q, hq, hcl⟩
    · rcases hcl2 : classify_market cfg now_ts max_close_ts odds p.1 p.2.1 p.2.2 with
        _ | _ | _ | _ | _ | _ | _ | c2
      all_goals rw [filterStep, hcl2] at hacc
      all_goals simp only [stepMarket] at hacc
      · exact Or.inl hacc
      · exact Or.inl hacc
      · exact Or.inl hacc
      · exact Or.inl hacc
      · exact Or.inl hacc
      · exact Or.inl hacc
      · exact Or.inl hacc
      · rcases List.mem_append.mp hacc with h1 | h2
        · exact Or.inl h1
        · have : c = c2 := by simpa using h2
          exact Or.inr ⟨p, List.mem_cons_self p ps, this ▸ hcl2⟩
    · exact Or.inr ⟨q, List.mem_cons_of_mem p hq, hcl⟩

/-! ### Odds fetcher lemmas -/

lemma dictInsert_of_not_mem (acc : List (String × Odds)) (k : String) (v : Odds)
    (h : k ∉ acc.map Prod.fst) : dictInsert acc k v = acc ++ [(k, v)] := by
  have hany : acc.any (fun p => p.1 == k) = false := by
    rw [List.any_eq_false]
    intro p hp
    intro hk
    have hk2 : p.1 = k := by simpa using hk
    exact h (hk2 ▸ List.mem_map_of_mem Prod.fst hp)
  unfold dictInsert
  rw [hany]
  rfl

lemma oddsFold_spec (fetch : String → Option Odds) :
    ∀ (ts : List String) (acc : List (String × Odds)),
      ts.Nodup → (∀ t ∈ ts, t ∉ acc.map Prod.fst) →
      ((ts.foldl (oddsStep fetch) acc).length
          = acc.length + ts.countP (fun t => (fetch t).isSome))
      ∧ (∀ p : String × Odds,
          p ∈ ts.foldl (oddsStep fetch) acc
            ↔ p ∈ acc ∨ (p.1 ∈ ts ∧ fetch p.1 = some p.2)) := by
  intro ts
  induction ts with
  | nil => intro acc _ _; simp
  | cons t ts ih =>
    intro acc hnd hdisj
    rcases hf : fetch t with _ | o
    · have hstep : oddsStep fetch acc t = acc := by simp [oddsStep, hf]
      rw [List.foldl_cons, hstep]
      obtain ⟨ihl, ihm⟩ := ih acc (List.nodup_cons.mp hnd).2
        (fun t2 ht2 => hdisj t2 (List.mem_cons_of_mem t ht2))
      constructor
      · rw [ihl, List.countP_cons]
        simp [hf]
      · intro p
        rw [ihm p]
        constructor
        · rintro (hp | ⟨hmem, hfp⟩)
          · exact Or.inl hp
          · exact Or.inr ⟨List.mem_cons_of_mem t hmem, hfp⟩
        · rintro (hp | ⟨hmem, hfp⟩)
          · exact Or.inl hp
          · rcases List.mem_cons.mp hmem with rfl | hmem2
            · rw [hf] at hfp; exact Option.noConfusion hfp
            · exact Or.inr ⟨hmem2, hfp⟩
    · have hstep : oddsStep fetch acc t = acc ++ [(t, o)] := by
        unfold oddsStep
        rw [hf]
        exact dictInsert_of_not_mem acc t o (hdisj t (List.mem_cons_self t ts))
      rw [List.foldl_cons, hstep]
      have hnd2 := List.nodup_cons.mp hnd
      have hdisj2 : ∀ t2 ∈ ts, t2 ∉ List.map Prod.fst (acc ++ [(t, o)]) := by
        intro t2 ht2
        rw [List.map_append, List.mem_append]
        rintro (h1 | h2)
        · exact hdisj t2 (List.mem_cons_of_mem t ht2) h1
        · simp only [List.map_cons, List.map_nil, List.mem_singleton] at h2
          exact hnd2.1 (h2 ▸ ht2)
      obtain ⟨ihl, ihm⟩ := ih (acc ++ [(t, o)]) hnd2.2 hdisj2
      constructor
      · rw [ihl, List.countP_cons]
        have hlen : (acc ++ [(t, o)]).length = acc.length + 1 := by simp
        rw [hlen, hf]
        simp only [Option.isSome_some, if_true]
        omega
      · intro p
        rw [ihm p]
        rw [List.mem_append, List.mem_singleton]
        constructor
        · rintro ((hp | hpt) | ⟨hmem, hfp⟩)
          · exact Or.inl hp
          · refine Or.inr ⟨?_, ?_⟩
            · rw [hpt]; exact List.mem_cons_self t ts
            · rw [hpt]; exact hf
          · exact Or.inr ⟨List.mem_cons_of_mem t hmem, hfp⟩
        · rintro (hp | ⟨hmem, hfp⟩)
          · exact Or.inl (Or.inl hp)
          · rcases List.mem_cons.mp hmem with heq | hmem2
            · refine Or.inl (Or.inr ?_)
              have hpo : p.2 = o := by
                rw [heq] at hfp
                rw [hf] at hfp
                injection hfp with h2
                exact h2.symm
              rw [← hpo, ← heq]
            · exact Or.inr ⟨hmem2, hfp⟩
/-! ### Concrete fixtures used by counterexamples and witnesses -/

/-- A configuration with the documented defaults (src/config.py lines 68-77). -/
def cfg0 : BotConfig := ⟨24, 90, 1, 98, 1000, 5⟩

/-- The run clock 2024-01-01T00:00:00Z and the 24h close-time bound. -/
def now0 : Int := 1704067200

/-- `self.max_close_ts` = now0 + 24h. -/
def mct0 : Option Int := some 1704153600

/-- A fully populated snapshot that qualifies under `cfg0` at `now0`. -/
def odds0 : Odds := ⟨some 95, some 97, some "2024-01-01T12:00:00Z", some 5000⟩

def mkt0 : MarketSummary :=
  ⟨"KXTEST-01JAN24-T1", "Test market", "Yes outcome", none, 4000, 4500, ""⟩

def ev0 : Event := ⟨some "Test event", some 6000⟩

def em0 : List (String × EventData) := [("KXTEST-01JAN24", ⟨ev0, [mkt0]⟩)]

def oddsmap0 : List (String × Odds) := [("KXTEST-01JAN24-T1", odds0)]

/-- An odds entry with an absent yes-bid, the case of src/trading_bot.py
lines 199-200. -/
def oddsNB : Odds := ⟨none, some 99, none, none⟩

def mktB : MarketSummary := ⟨"T1", "m", "", none, 0, 0, "x"⟩

def emB : List (String × EventData) := [("EV", ⟨⟨none, none⟩, [mktB]⟩)]

/-! ### C1 -/

/-- C1, counterexample: one market with a ticker whose odds entry lacks a
yes-bid is rejected without being tallied, so the five counters plus the
candidate count fall short of the number of markets bearing a ticker. -/
theorem claim1_tally_counterexample :
    (filter_high_probability_markets cfg0 mct0 emB [("T1", oddsNB)] now0).2.sum
      + (filter_high_probability_markets cfg0 mct0 emB [("T1", oddsNB)] now0).1.length
      ≠ tickered_market_count emB := by decide

/-- C1 (amended): the rejection tally is exhaustive and exclusive once the
silently dropped markets (odds entry present, yes-bid or yes-ask absent) are
added: sum(tally) + len(candidates) + silent drops = markets bearing a
ticker; and each tallied rejection is the first failed predicate in the
order existence, price, spread, expiration, volume. -/
theorem claim1_tally_amended (cfg : BotConfig) (mco : Option Int)
    (em : List (String × EventData)) (odds : List (String × Odds)) (now_ts : Int) :
    ((filter_high_probability_markets cfg mco em odds now_ts).2.sum
        + (filter_high_probability_markets cfg mco em odds now_ts).1.length
        + silent_drop_count cfg mco em odds now_ts
      = tickered_market_count em)
    ∧ (∀ et ev m, classify_market cfg now_ts (computeMaxCloseTs mco now_ts cfg) odds et ev m
          = .rejNoOdds ↔ m.ticker ≠ "" ∧ lookupOdds odds m.ticker = none)
    ∧ (∀ et ev m, classify_market cfg now_ts (computeMaxCloseTs mco now_ts cfg) odds et ev m
          = .rejPrice ↔ m.ticker ≠ "" ∧ ∃ o b a, lookupOdds odds m.ticker = some o
            ∧ o.yes_bid = some b ∧ o.yes_ask = some a ∧ b < cfg.min_yes_price_cents)
    ∧ (∀ et ev m, classify_market cfg now_ts (computeMaxCloseTs mco now_ts cfg) odds et ev m
          = .rejSpread ↔ m.ticker ≠ "" ∧ ∃ o b a, lookupOdds odds m.ticker = some o
            ∧ o.yes_bid = some b ∧ o.yes_ask = some a
            ∧ ¬ b < cfg.min_yes_price_cents ∧ a - b < cfg.min_spread_cents)
    ∧ (∀ et ev m, classify_market cfg now_ts (computeMaxCloseTs mco now_ts cfg) odds et ev m
          = .rejExpiration ↔ m.ticker ≠ "" ∧ ∃ o b a, lookupOdds odds m.ticker = some o
            ∧ o.yes_bid = some b ∧ o.yes_ask = some a
            ∧ ¬ b < cfg.min_yes_price_cents ∧ ¬ a - b < cfg.min_spread_cents
            ∧ (parse_kalshi_timestamp (close_time_source o m) = none
                ∨ ∃ ct, parse_kalshi_timestamp (close_time_source o m) = some ct
                    ∧ (ct ≤ now_ts ∨ (computeMaxCloseTs mco now_ts cfg ≠ 0
                        ∧ computeMaxCloseTs mco now_ts cfg < ct))))
    ∧ (∀ et ev m, classify_market cfg now_ts (computeMaxCloseTs mco now_ts cfg) odds et ev m
          = .rejVolume ↔ m.ticker ≠ "" ∧ ∃ o b a, lookupOdds odds m.ticker = some o
            ∧ o.yes_bid = some b ∧ o.yes_ask = some a
            ∧ ¬ b < cfg.min_yes_price_cents ∧ ¬ a - b < cfg.min_spread_cents
            ∧ ∃ ct, parse_kalshi_timestamp (close_time_source o m) = some ct
                ∧ ¬ ct ≤ now_ts
                ∧ ¬ (computeMaxCloseTs mco now_ts cfg ≠ 0 ∧ computeMaxCloseTs mco now_ts cfg < ct)
                ∧ max ((ev.volume_24h).getD 0)
                    (max (max m.volume_24h m.volume) ((o.volume).getD 0))
                    < cfg.min_volume_24h) := by
  refine ⟨?_, fun et ev m => classify_eq_rejNoOdds_iff cfg now_ts _ odds et ev m,
    fun et ev m => classify_eq_rejPrice_iff cfg now_ts _ odds et ev m,
    fun et ev m => classify_eq_rejSpread_iff cfg now_ts _ odds et ev m,
    fun et ev m => classify_eq_rejExpiration_iff cfg now_ts _ odds et ev m,
    fun et ev m => classify_eq_rejVolume_iff cfg now_ts _ odds et ev m⟩
  simp only [filter_high_probability_markets, silent_drop_count, tickered_market_count]
  rw [rank_length, foldl_sum_len]
  have h2 := countP_counted_add_silent cfg now_ts (computeMaxCloseTs mco now_ts cfg) odds
    (marketsOf em)
  simp only [RejectionTally.zero, RejectionTally.sum, List.length_nil] at *
  omega
/-! ### C2 -/

/-- C2, counterexample: the ticker "T1" has an odds entry whose yes-bid is
absent; the market is rejected (no candidate is emitted) but the `no_odds`
counter stays 0 — the claim would require it to be counted there. -/
theorem claim2_no_odds_counterexample :
    lookupOdds [("T1", oddsNB)] mktB.ticker = some oddsNB
    ∧ oddsNB.yes_bid = none
    ∧ (filter_high_probability_markets cfg0 mct0 emB [("T1", oddsNB)] now0).1 = []
    ∧ (filter_high_probability_markets cfg0 mct0 emB [("T1", oddsNB)] now0).2.no_odds = 0
    ∧ (filter_high_probability_markets cfg0 mct0 emB [("T1", oddsNB)] now0).2.sum = 0 := by
  decide

/-- C2 (amended): a market whose ticker has no odds entry is rejected and
counted under `no_odds`; a market whose odds entry is present but lacks a
yes-bid or a yes-ask is rejected silently — dropped with no effect on any
counter or on the candidate list. -/
theorem claim2_no_odds_amended (cfg : BotConfig) (now_ts max_close_ts : Int)
    (odds : List (String × Odds)) (et : String) (ev : Event) (m : MarketSummary) :
    (classify_market cfg now_ts max_close_ts odds et ev m = .rejNoOdds
      ↔ m.ticker ≠ "" ∧ lookupOdds odds m.ticker = none)
    ∧ (∀ o, m.ticker ≠ "" → lookupOdds odds m.ticker = some o →
        (o.yes_bid = none ∨ o.yes_ask = none) →
        classify_market cfg now_ts max_close_ts odds et ev m = .silentDrop)
    ∧ (∀ acc, stepMarket acc .rejNoOdds
        = (acc.1, { acc.2 with no_odds := acc.2.no_odds + 1 }))
    ∧ (∀ acc, stepMarket acc .silentDrop = acc) := by
  refine ⟨classify_eq_rejNoOdds_iff cfg now_ts max_close_ts odds et ev m, ?_, fun _ => rfl, fun _ => rfl⟩
  intro o ht hl hcase
  exact (classify_eq_silentDrop_iff cfg now_ts max_close_ts odds et ev m).mpr ⟨ht, o, hl, hcase⟩

/-- C2 witness: the amended statement instantiated on the concrete fixture
with an absent yes-bid. -/
theorem claim2_no_odds_witness :
    classify_market cfg0 now0 1704153600 [("T1", oddsNB)] "EV" ⟨none, none⟩ mktB
      = .silentDrop :=
  (claim2_no_odds_amended cfg0 now0 1704153600 [("T1", oddsNB)] "EV" ⟨none, none⟩ mktB).2.1
    oddsNB (by decide) (by decide) (Or.inl (by decide))
/-! ### C4 -/

/-- C4: every emitted Candidate satisfies the price floor, the spread
floor, and the close-time window `now_ts < close_ts ≤ maxCloseTs`, where
maxCloseTs is the supplied override or now plus the configured window
(nonzero, as any real run's bound is). -/
theorem claim4_candidate_bounds (cfg : BotConfig) (mco : Option Int)
    (em : List (String × EventData)) (odds : List (String × Odds)) (now_ts : Int)
    (hmct : computeMaxCloseTs mco now_ts cfg ≠ 0) :
    ∀ c ∈ (filter_high_probability_markets cfg mco em odds now_ts).1,
      cfg.min_yes_price_cents ≤ c.yes_bid
      ∧ cfg.min_spread_cents ≤ c.yes_ask - c.yes_bid
      ∧ now_ts < c.close_ts
      ∧ c.close_ts ≤ computeMaxCloseTs mco now_ts cfg := by
  intro c hc
  simp only [filter_high_probability_markets] at hc
  rw [rank_mem] at hc
  rcases mem_foldl_results cfg now_ts (computeMaxCloseTs mco now_ts cfg) odds
      (marketsOf em) ([], RejectionTally.zero) c hc with h0 | ⟨p, _, hcl⟩
  · exact absurd h0 (List.not_mem_nil c)
  · obtain ⟨h1, h2, h3, h4, h5, _, _, _⟩ :=
      classify_accepted_inversion cfg now_ts (computeMaxCloseTs mco now_ts cfg) odds
        p.1 p.2.1 p.2.2 c hcl
    exact ⟨h1, by omega, h4, h5 hmct⟩

/-- C4 witness: the concrete qualifying fixture market. -/
theorem claim4_witness :
    computeMaxCloseTs mct0 now0 cfg0 ≠ 0
    ∧ (cfg0.min_yes_price_cents
          ≤ ((filter_high_probability_markets cfg0 mct0 em0 oddsmap0 now0).1.get
              ⟨0, by decide⟩).yes_bid
        ∧ cfg0.min_spread_cents
            ≤ ((filter_high_probability_markets cfg0 mct0 em0 oddsmap0 now0).1.get
                ⟨0, by decide⟩).yes_ask
              - ((filter_high_probability_markets cfg0 mct0 em0 oddsmap0 now0).1.get
                ⟨0, by decide⟩).yes_bid
        ∧ now0 < ((filter_high_probability_markets cfg0 mct0 em0 oddsmap0 now0).1.get
            ⟨0, by decide⟩).close_ts
        ∧ ((filter_high_probability_markets cfg0 mct0 em0 oddsmap0 now0).1.get
            ⟨0, by decide⟩).close_ts ≤ computeMaxCloseTs mct0 now0 cfg0) :=
  ⟨by decide,
    claim4_candidate_bounds cfg0 mct0 em0 oddsmap0 now0 (by decide) _ (List.get_mem _ _ _)⟩

/-! ### C6 -/

/-- C6: every emitted Candidate has `roi_cents = max(0, 100 - yes_bid)` and
`roi_pct = roi_cents / yes_bid * 100` exactly (0 when yes_bid is 0), ROI
computed over the exact rationals that model Python's floats. -/
theorem claim6_roi_formula (cfg : BotConfig) (mco : Option Int)
    (em : List (String × EventData)) (odds : List (String × Odds)) (now_ts : Int) :
    ∀ c ∈ (filter_high_probability_markets cfg mco em odds now_ts).1,
      c.roi_cents = max 0 (100 - c.yes_bid)
      ∧ c.roi_pct
          = (if c.yes_bid ≠ 0 then (c.roi_cents : Rat) / (c.yes_bid : Rat) * 100 else 0) := by
  intro c hc
  simp only [filter_high_probability_markets] at hc
  rw [rank_mem] at hc
  rcases mem_foldl_results cfg now_ts (computeMaxCloseTs mco now_ts cfg) odds
      (marketsOf em) ([], RejectionTally.zero) c hc with h0 | ⟨p, _, hcl⟩
  · exact absurd h0 (List.not_mem_nil c)
  · obtain ⟨_, _, _, _, _, h6, h7, _⟩ :=
      classify_accepted_inversion cfg now_ts (computeMaxCloseTs mco now_ts cfg) odds
        p.1 p.2.1 p.2.2 c hcl
    exact ⟨h6, h7⟩

/-- C6 witness: the fixture candidate bought at 95¢ has `roi_cents = 5` and
`roi_pct = 100/19 ≈ 5.263`. -/
theorem claim6_witness :
    ((filter_high_probability_markets cfg0 mct0 em0 oddsmap0 now0).1.get
        ⟨0, by decide⟩).yes_bid = 95
    ∧ ((filter_high_probability_markets cfg0 mct0 em0 oddsmap0 now0).1.get
        ⟨0, by decide⟩).roi_cents = max 0 (100 - 95)
    ∧ ((filter_high_probability_markets cfg0 mct0 em0 oddsmap0 now0).1.get
        ⟨0, by decide⟩).roi_pct = 100 / 19 := by
  obtain ⟨h1, h2⟩ := claim6_roi_formula cfg0 mct0 em0 oddsmap0 now0
    ((filter_high_probability_markets cfg0 mct0 em0 oddsmap0 now0).1.get ⟨0, by decide⟩)
    (List.get_mem _ _ _)
  have hyb : ((filter_high_probability_markets cfg0 mct0 em0 oddsmap0 now0).1.get
      ⟨0, by decide⟩).yes_bid = 95 := by decide
  have hrc : ((filter_high_probability_markets cfg0 mct0 em0 oddsmap0 now0).1.get
      ⟨0, by decide⟩).roi_cents = 5 := by decide
  refine ⟨hyb, by rw [h1, hyb], ?_⟩
  rw [h2, hyb, hrc]
  norm_num

/-! ### C9 -/

/-- C9: the filter never reads `max_yes_ask_cents` — two runs over identical
inputs that differ only in that threshold produce identical results. -/
theorem claim9_max_yes_ask_unused (cfg : BotConfig) (a b : Int) (mco : Option Int)
    (em : List (String × EventData)) (odds : List (String × Odds)) (now_ts : Int) :
    filter_high_probability_markets { cfg with max_yes_ask_cents := a } mco em odds now_ts
      = filter_high_probability_markets { cfg with max_yes_ask_cents := b } mco em odds now_ts := by
  cases cfg
  rfl
/-! ### C7 -/

/-- An odds snapshot whose close_time is not a parseable timestamp. -/
def oddsBadCT : Odds := ⟨some 95, some 97, some "not-a-timestamp", some 5000⟩

def mktBad : MarketSummary := ⟨"TBAD", "m", "", none, 4000, 4500, ""⟩

def emBad : List (String × EventData) := [("EV", ⟨ev0, [mktBad]⟩)]

/-- C7: the timestamp parser maps "2024-01-01T00:00:00Z" to epoch
1704067200, a trailing Z is UTC offset zero (same value as "+00:00"), a
naive timestamp is treated as UTC (same value again), an unparseable
string yields none, and the filter then rejects such a market under the
`expiration` category without emitting anything. -/
theorem claim7_timestamp_parsing :
    parse_kalshi_timestamp (some "2024-01-01T00:00:00Z") = some 1704067200
    ∧ parse_kalshi_timestamp (some "2024-01-01T00:00:00+00:00") = some 1704067200
    ∧ parse_kalshi_timestamp (some "2024-01-01T00:00:00") = some 1704067200
    ∧ parse_kalshi_timestamp (some "not-a-timestamp") = none
    ∧ parse_kalshi_timestamp (some "") = none
    ∧ parse_kalshi_timestamp none = none
    ∧ (filter_high_probability_markets cfg0 mct0 emBad [("TBAD", oddsBadCT)] now0).2.expiration = 1
    ∧ (filter_high_probability_markets cfg0 mct0 emBad [("TBAD", oddsBadCT)] now0).1 = [] := by
  decide

/-! ### C8 -/

/-- C8: the odds fetcher tolerates partial failure — with pairwise distinct
tickers, the resulting map has exactly one entry per successfully fetched
ticker, every successful ticker is present, every failed ticker is absent,
and the run is not aborted as long as one fetch succeeded. -/
theorem claim8_partial_failure (em : List (String × EventData))
    (fetch : String → Option Odds) (hnd : (collect_tickers em).Nodup) :
    ((get_market_odds fetch em).length
        = (collect_tickers em).countP (fun t => (fetch t).isSome))
    ∧ (∀ t o, t ∈ collect_tickers em → fetch t = some o → (t, o) ∈ get_market_odds fetch em)
    ∧ (∀ t o, fetch t = none → (t, o) ∉ get_market_odds fetch em)
    ∧ ((collect_tickers em).countP (fun t => (fetch t).isSome) ≠ 0 →
        run_aborts_after_odds (get_market_odds fetch em) = false) := by
  have hunfold : get_market_odds fetch em = (collect_tickers em).foldl (oddsStep fetch) [] := rfl
  obtain ⟨hlen, hmem⟩ := oddsFold_spec fetch (collect_tickers em) [] hnd (by simp)
  rw [List.length_nil, Nat.zero_add] at hlen
  rw [hunfold]
  refine ⟨hlen, ?_, ?_, ?_⟩
  · intro t o ht hf
    exact (hmem (t, o)).mpr (Or.inr ⟨ht, hf⟩)
  · intro t o hf hin
    rcases (hmem (t, o)).mp hin with h0 | ⟨_, hsome⟩
    · exact absurd h0 (List.not_mem_nil _)
    · rw [hf] at hsome; exact Option.noConfusion hsome
  · intro hne
    rw [run_aborts_after_odds, List.isEmpty_eq_false_iff_exists_mem]
    have hne2 : (List.foldl (oddsStep fetch) [] (collect_tickers em)).length ≠ 0 := by
      rw [hlen]; exact hne
    rcases List.exists_mem_of_length_pos (Nat.pos_of_ne_zero hne2) with ⟨p, hp⟩
    exact ⟨p, hp⟩

def mkMkt (t : String) : MarketSummary := ⟨t, "", "", none, 0, 0, ""⟩

/-- Twenty-five distinct tickers in one event. -/
def em25 : List (String × EventData) :=
  [("EV", ⟨⟨none, none⟩, [mkMkt "T01", mkMkt "T02", mkMkt "T03", mkMkt "T04", mkMkt "T05",
    mkMkt "T06", mkMkt "T07", mkMkt "T08", mkMkt "T09", mkMkt "T10",
    mkMkt "T11", mkMkt "T12", mkMkt "T13", mkMkt "T14", mkMkt "T15",
    mkMkt "T16", mkMkt "T17", mkMkt "T18", mkMkt "T19", mkMkt "T20",
    mkMkt "T21", mkMkt "T22", mkMkt "T23", mkMkt "T24", mkMkt "T25"]⟩)]

/-- A fetch oracle failing on exactly the tickers "T10" and "T20". -/
def fetch25 : String → Option Odds :=
  fun t => if t = "T10" ∨ t = "T20" then none else some odds0

/-- C8 witness: 25 tickers with 2 simulated failures give a map of exactly
23 entries and the run proceeds. -/
theorem claim8_witness :
    (collect_tickers em25).Nodup
    ∧ (get_market_odds fetch25 em25).length = 23
    ∧ run_aborts_after_odds (get_market_odds fetch25 em25) = false := by
  refine ⟨by decide, ?_, ?_⟩
  · rw [(claim8_partial_failure em25 fetch25 (by decide)).1]
    decide
  · exact (claim8_partial_failure em25 fetch25 (by decide)).2.2.2 (by decide)

/-! ### Notifier lemmas -/

lemma notifyLoop_spec (top_n : Int) (sendOk : Nat → Bool) :
    ∀ (ms : List Candidate) (pos : Nat) (seen : List (String × String)) (sent : Nat),
      (∀ e ∈ notifyLoop top_n sendOk ms pos seen sent, e.2.1 ∉ seen)
      ∧ (∀ e1 ∈ notifyLoop top_n sendOk ms pos seen sent,
          ∀ e2 ∈ notifyLoop top_n sendOk ms pos seen sent, e1.2.1 = e2.2.1 → e1 = e2)
      ∧ ((notifyLoop top_n sendOk ms pos seen sent).map (fun e => e.2.1)).Nodup := by
  intro ms
  induction ms with
  | nil =>
    intro pos seen sent
    refine ⟨?_, ?_, ?_⟩ <;> simp [notifyLoop]
  | cons m rest ih =>
    intro pos seen sent
    simp only [notifyLoop]
    by_cases hseen : dedup_key m ∈ seen
    · rw [if_pos hseen]
      exact ih (pos + 1) seen sent
    · rw [if_neg hseen]
      by_cases hsend : sendOk pos = true
      · rw [if_pos hsend]
        by_cases hbreak : top_n ≤ (sent + 1 : Int)
        · rw [if_pos hbreak]
          refine ⟨?_, ?_, ?_⟩
          · intro e he
            rw [List.mem_singleton] at he
            rw [he]
            exact hseen
          · intro e1 h1 e2 h2 _
            rw [List.mem_singleton] at h1 h2
            rw [h1, h2]
          · simp
        · rw [if_neg hbreak]
          obtain ⟨ih1, ih2, ih3⟩ := ih (pos + 1) (dedup_key m :: seen) (sent + 1)
          have hhead : ∀ e ∈ notifyLoop top_n sendOk rest (pos + 1)
              (dedup_key m :: seen) (sent + 1), e.2.1 ≠ dedup_key m := by
            intro e he hk
            exact ih1 e he (hk ▸ List.mem_cons_self (dedup_key m) seen)
          refine ⟨?_, ?_, ?_⟩
          · intro e he
            rcases List.mem_cons.mp he with rfl | hrest
            · exact hseen
            · intro hc
              exact ih1 e hrest (List.mem_cons_of_mem (dedup_key m) hc)
          · intro e1 h1 e2 h2 hk
            rcases List.mem_cons.mp h1 with rfl | h1r
            · rcases List.mem_cons.mp h2 with rfl | h2r
              · rfl
              · exact absurd hk.symm (hhead e2 h2r)
            · rcases List.mem_cons.mp h2 with rfl | h2r
              · exact absurd hk (hhead e1 h1r)
              · exact ih2 e1 h1r e2 h2r hk
          · rw [List.map_cons, List.nodup_cons]
            refine ⟨?_, ih3⟩
            intro hmem
            rcases List.mem_map.mp hmem with ⟨e, he, hke⟩
            exact hhead e he hke
      · rw [if_neg hsend]
        obtain ⟨ih1, ih2, ih3⟩ := ih (pos + 1) (dedup_key m :: seen) sent
        have hhead : ∀ e ∈ notifyLoop top_n sendOk rest (pos + 1)
            (dedup_key m :: seen) sent, e.2.1 ≠ dedup_key m := by
          intro e he hk
          exact ih1 e he (hk ▸ List.mem_cons_self (dedup_key m) seen)
        refine ⟨?_, ?_, ?_⟩
        · intro e he
          rcases List.mem_cons.mp he with rfl | hrest
          · exact hseen
          · intro hc
            exact ih1 e hrest (List.mem_cons_of_mem (dedup_key m) hc)
        · intro e1 h1 e2 h2 hk
          rcases List.mem_cons.mp h1 with rfl | h1r
          · rcases List.mem_cons.mp h2 with rfl | h2r
            · rfl
            · exact absurd hk.symm (hhead e2 h2r)
          · rcases List.mem_cons.mp h2 with rfl | h2r
            · exact absurd hk (hhead e1 h1r)
            · exact ih2 e1 h1r e2 h2r hk
        · rw [List.map_cons, List.nodup_cons]
          refine ⟨?_, ih3⟩
          intro hmem
          rcases List.mem_map.mp hmem with ⟨e, he, hke⟩
          exact hhead e he hke

lemma notifyLoop_successCount (top_n : Int) (sendOk : Nat → Bool) :
    ∀ (ms : List Candidate) (pos : Nat) (seen : List (String × String)) (sent : Nat),
      (sent : Int) < top_n →
      (successCount (notifyLoop top_n sendOk ms pos seen sent) : Int) ≤ top_n - sent := by
  intro ms
  induction ms with
  | nil =>
    intro pos seen sent hs
    simp only [notifyLoop, successCount, List.filter_nil, List.length_nil]
    omega
  | cons m rest ih =>
    intro pos seen sent hs
    simp only [notifyLoop]
    by_cases hseen : dedup_key m ∈ seen
    · rw [if_pos hseen]
      exact ih (pos + 1) seen sent hs
    · rw [if_neg hseen]
      by_cases hsend : sendOk pos = true
      · rw [if_pos hsend]
        by_cases hbreak : top_n ≤ (sent + 1 : Int)
        · rw [if_pos hbreak]
          simp only [successCount, List.filter_cons, List.filter_nil]
          norm_num
          omega
        · rw [if_neg hbreak]
          have hrec := ih (pos + 1) (dedup_key m :: seen) (sent + 1) (by omega)
          simp only [successCount, List.filter_cons] at *
          norm_num at *
          omega
      · rw [if_neg hsend]
        have hrec := ih (pos + 1) (dedup_key m :: seen) sent hs
        simp only [successCount, List.filter_cons] at *
        rw [if_neg (by simp [hsend])]
        omega
/-! ### C3 -/

/-- A concrete ranked candidate with integer-valued ROI fields. -/
def candA : Candidate :=
  ⟨"T1", "t1", "EV", "ev", "E", "M", "Out1", 95, 97, 2, some 5, 1704100000, 6000, 5000, 5, 5⟩

/-- A distinct candidate carrying the same dedup key (same event ticker and
outcome label) as `candA`. -/
def candA2 : Candidate :=
  ⟨"T2", "t2", "EV", "ev", "E", "M2", "Out1", 96, 98, 2, some 4, 1704100000, 6000, 5000, 4, 4⟩

/-- cfg0 with the notification cap set to 0. -/
def cfgZ : BotConfig := ⟨24, 90, 1, 98, 1000, 0⟩

/-- C3, counterexample: with `max_notifications_per_run = 0` the cap check
`sent >= top_n` runs only after a send, so one successful send still goes
out — more than the configured cap. -/
theorem claim3_cap_counterexample :
    cfgZ.max_notifications_per_run = 0
    ∧ successCount (send_telegram_notifications cfgZ true (fun _ => true) [candA]) = 1 := by
  decide

/-- C3 (amended): in one run the notifier never attempts (hence never
sends) two messages for the same (event ticker, outcome label or ticker)
dedup key, and — provided the configured cap is at least 1, the check
being placed after the send — it performs at most
`max_notifications_per_run` successful sends no matter how many
deliveries fail; the loop stops at the cap of successes or when the
candidates run out. -/
theorem claim3_dedup_cap_amended (cfg : BotConfig) (configured : Bool)
    (sendOk : Nat → Bool) (markets : List Candidate)
    (hcap : 1 ≤ cfg.max_notifications_per_run) :
    ((send_telegram_notifications cfg configured sendOk markets).map (fun e => e.2.1)).Nodup
    ∧ (successCount (send_telegram_notifications cfg configured sendOk markets) : Int)
        ≤ cfg.max_notifications_per_run := by
  rw [send_telegram_notifications]
  by_cases hconf : configured
  · rw [if_neg (by simp [hconf])]
    by_cases hmk : markets = []
    · rw [if_pos hmk]
      simp [successCount]
      omega
    · rw [if_neg hmk]
      dsimp only
      have hlen : 1 ≤ (markets.length : Int) := by
        have := List.length_pos.mpr hmk
        omega
      have htop : (0 : Int) < min (markets.length : Int) cfg.max_notifications_per_run := by
        omega
      refine ⟨(notifyLoop_spec _ sendOk markets 0 [] 0).2.2, ?_⟩
      have hb := notifyLoop_successCount
        (min (markets.length : Int) cfg.max_notifications_per_run) sendOk markets 0 [] 0
        (by omega)
      omega
  · rw [if_pos (by simp [hconf])]
    simp [successCount]
    omega

/-- C3 witness: a configured run under the default cap of 5. -/
theorem claim3_witness :
    (1 : Int) ≤ cfg0.max_notifications_per_run
    ∧ (((send_telegram_notifications cfg0 true (fun _ => true) [candA]).map
          (fun e => e.2.1)).Nodup
        ∧ (successCount (send_telegram_notifications cfg0 true (fun _ => true) [candA]) : Int)
            ≤ cfg0.max_notifications_per_run) :=
  ⟨by decide, claim3_dedup_cap_amended cfg0 true (fun _ => true) [candA] (by decide)⟩

/-! ### C10 -/

/-- C10: a dedup key is recorded as seen before delivery is attempted, so a
key is attempted at most once per run: any attempt sharing the key of a
failed attempt is that same attempt — after a failed send the key is
consumed for the rest of the run even though the failure consumed no
notification slot (only entries marked successful are counted by
`successCount`). -/
theorem claim10_failed_send_consumes_key (cfg : BotConfig) (configured : Bool)
    (sendOk : Nat → Bool) (markets : List Candidate)
    (i j : Nat) (k : String × String) (s : Bool)
    (h1 : (i, k, false) ∈ send_telegram_notifications cfg configured sendOk markets)
    (h2 : (j, k, s) ∈ send_telegram_notifications cfg configured sendOk markets) :
    i = j ∧ s = false := by
  have hinj : ((i, k, false) : Nat × (String × String) × Bool) = (j, k, s) := by
    revert h1 h2
    rw [send_telegram_notifications]
    by_cases hconf : configured
    · rw [if_neg (by simp [hconf])]
      by_cases hmk : markets = []
      · rw [if_pos hmk]
        intro h1
        exact absurd h1 (List.not_mem_nil _)
      · rw [if_neg hmk]
        intro h1 h2
        exact (notifyLoop_spec _ sendOk markets 0 [] 0).2.1 _ h1 _ h2 rfl
    · rw [if_pos (by simp [hconf])]
      intro h1
      exact absurd h1 (List.not_mem_nil _)
  refine ⟨?_, ?_⟩
  · injection hinj with hij _
  · have := congrArg (fun e => e.2.2) hinj
    exact this.symm

/-- C10 witness: two candidates share a key; the first delivery fails, and
the second candidate is never attempted. -/
theorem claim10_witness :
    ((0, ("EV", "Out1"), false)
        ∈ send_telegram_notifications cfg0 true (fun _ => false) [candA, candA2])
    ∧ ¬ ((1, ("EV", "Out1"), true)
        ∈ send_telegram_notifications cfg0 true (fun _ => false) [candA, candA2]) :=
  ⟨by decide,
    fun h =>
      absurd
        (claim10_failed_send_consumes_key cfg0 true (fun _ => false) [candA, candA2]
          0 1 ("EV", "Out1") true (by decide) h).1
        (by decide)⟩
/-! ### C5: the ranker -/

lemma rankRel_iff (p q : Nat × Candidate) :
    rankRel p q ↔ (q.2.roi_pct < p.2.roi_pct
      ∨ (p.2.roi_pct = q.2.roi_pct
          ∧ (hoursTop p.2.hours_to_close < hoursTop q.2.hours_to_close
            ∨ (hoursTop p.2.hours_to_close = hoursTop q.2.hours_to_close
                ∧ p.1 ≤ q.1)))) := by
  unfold rankRel rankKey
  rw [Prod.Lex.le_iff, Prod.Lex.le_iff]
  simp only [OrderDual.toDual_lt_toDual]
  constructor
  · rintro (h1 | ⟨h1, h2⟩)
    · exact Or.inl h1
    · exact Or.inr ⟨(OrderDual.toDual_inj).mp h1, h2⟩
  · rintro (h1 | ⟨h1, h2⟩)
    · exact Or.inl h1
    · exact Or.inr ⟨(OrderDual.toDual_inj).mpr h1, h2⟩

lemma rank_length_eq (l : List Candidate) :
    (rank l).length = (List.insertionSort rankRel l.enum).length := by
  simp [rank]

lemma rank_get (l : List Candidate) (i : Fin (rank l).length) :
    (rank l).get i
      = ((List.insertionSort rankRel l.enum).get (Fin.cast (rank_length_eq l) i)).2 := by
  rw [List.get_eq_getElem, List.get_eq_getElem]
  simp only [rank, List.getElem_map]
  rfl

lemma rank_idx_nodup (l : List Candidate) :
    ((List.insertionSort rankRel l.enum).map Prod.fst).Nodup := by
  have hperm := (List.perm_insertionSort rankRel l.enum).map Prod.fst
  rw [List.enum_map_fst] at hperm
  exact hperm.nodup_iff.mpr (List.nodup_range _)

lemma rank_stable_on_ties (l : List Candidate) (r : Rat) (ho : Option Rat) :
    (rank l).filter (fun c => decide (c.roi_pct = r ∧ c.hours_to_close = ho))
      = l.filter (fun c => decide (c.roi_pct = r ∧ c.hours_to_close = ho)) := by
  set pred : Candidate → Bool := fun c => decide (c.roi_pct = r ∧ c.hours_to_close = ho) with hpred
  set d := List.insertionSort rankRel l.enum with hd
  have hfm : (rank l).filter pred = (d.filter (pred ∘ Prod.snd)).map Prod.snd := by
    rw [rank, List.filter_map]
  have hperm : (d.filter (pred ∘ Prod.snd)).Perm (l.enum.filter (pred ∘ Prod.snd)) :=
    (List.perm_insertionSort rankRel l.enum).filter (pred ∘ Prod.snd)
  have hkey : ∀ p : Nat × Candidate, (pred ∘ Prod.snd) p = true →
      p.2.roi_pct = r ∧ p.2.hours_to_close = ho := by
    intro p hp
    simpa [hpred] using hp
  have hsub : (d.filter (pred ∘ Prod.snd)).Sublist d := List.filter_sublist d
  have hnodupf : ((d.filter (pred ∘ Prod.snd)).map Prod.fst).Nodup :=
    (hsub.map Prod.fst).nodup (rank_idx_nodup l)
  have hsd : (d.filter (pred ∘ Prod.snd)).Pairwise (fun a b => a.1 < b.1) := by
    have hpw : (d.filter (pred ∘ Prod.snd)).Pairwise rankRel :=
      (List.sorted_insertionSort rankRel l.enum).filter (pred ∘ Prod.snd)
    rw [List.pairwise_iff_getElem] at hpw ⊢
    intro i j hi hj hij
    have hrel := hpw i j hi hj hij
    rw [rankRel_iff] at hrel
    have hqi := hkey _ (List.of_mem_filter ((d.filter (pred ∘ Prod.snd)).getElem_mem hi))
    have hqj := hkey _ (List.of_mem_filter ((d.filter (pred ∘ Prod.snd)).getElem_mem hj))
    have hne : (d.filter (pred ∘ Prod.snd))[i].1 ≠ (d.filter (pred ∘ Prod.snd))[j].1 := by
      intro heq
      have hmi : ((d.filter (pred ∘ Prod.snd)).map Prod.fst).get ⟨i, by simpa using hi⟩
          = ((d.filter (pred ∘ Prod.snd)).map Prod.fst).get ⟨j, by simpa using hj⟩ := by
        rw [List.get_eq_getElem, List.get_eq_getElem, List.getElem_map, List.getElem_map]
        exact heq
      have hfin := (List.Nodup.get_inj_iff hnodupf).mp hmi
      have : i = j := congrArg Fin.val hfin
      omega
    rcases hrel with h1 | ⟨_, h2 | ⟨_, h3⟩⟩
    · rw [hqi.1, hqj.1] at h1
      exact absurd h1 (lt_irrefl _)
    · rw [hqi.2, hqj.2] at h2
      exact absurd h2 (lt_irrefl _)
    · exact lt_of_le_of_ne h3 hne
  have hse : (l.enum.filter (pred ∘ Prod.snd)).Pairwise (fun a b => a.1 < b.1) := by
    have henum : l.enum.Pairwise (fun a b => a.1 < b.1) := by
      have hr : (l.enum.map Prod.fst).Pairwise (fun a b => a < b) := by
        rw [List.enum_map_fst]
        exact List.pairwise_lt_range _
      exact List.pairwise_map.mp hr
    exact henum.filter (pred ∘ Prod.snd)
  haveI : IsAntisymm (Nat × Candidate) (fun a b => a.1 < b.1) :=
    ⟨fun a b h1 h2 => absurd h2 (Nat.lt_asymm h1)⟩
  have heq : d.filter (pred ∘ Prod.snd) = l.enum.filter (pred ∘ Prod.snd) :=
    List.eq_of_perm_of_sorted hperm hsd hse
  rw [hfm, heq, ← List.filter_map, List.enum_map_snd]

/-- C5: the ranker is a permutation of its input ordered by descending ROI
percent, ties broken by ascending hours-to-close with unknown hours last
(`hoursTop` maps an absent value to the top element), and it is stable:
for any exact tie on both keys the candidates keep their insertion order,
i.e. the sublist at any fixed key equals the corresponding sublist of the
input. -/
theorem claim5_ranking (l : List Candidate) :
    (rank l).Perm l
    ∧ (∀ i j : Fin (rank l).length,
        ((rank l).get j).roi_pct < ((rank l).get i).roi_pct → (i : Nat) < (j : Nat))
    ∧ (∀ i j : Fin (rank l).length,
        ((rank l).get i).roi_pct = ((rank l).get j).roi_pct →
        hoursTop ((rank l).get i).hours_to_close < hoursTop ((rank l).get j).hours_to_close →
        (i : Nat) < (j : Nat))
    ∧ (∀ (r : Rat) (ho : Option Rat),
        (rank l).filter (fun c => decide (c.roi_pct = r ∧ c.hours_to_close = ho))
          = l.filter (fun c => decide (c.roi_pct = r ∧ c.hours_to_close = ho))) := by
  refine ⟨rank_perm l, ?_, ?_, fun r ho => rank_stable_on_ties l r ho⟩
  · intro i j h
    rcases lt_trichotomy (i : Nat) (j : Nat) with hlt | heq | hgt
    · exact hlt
    · exfalso
      have hij : i = j := Fin.ext heq
      rw [hij] at h
      exact lt_irrefl _ h
    · exfalso
      have hfin : (Fin.cast (rank_length_eq l) j) < (Fin.cast (rank_length_eq l) i) := hgt
      have hrel := (List.sorted_insertionSort rankRel l.enum).rel_get_of_lt hfin
      rw [rankRel_iff] at hrel
      rw [rank_get l i, rank_get l j] at h
      rcases hrel with h1 | ⟨h1, _⟩
      · exact lt_asymm h h1
      · rw [h1] at h
        exact lt_irrefl _ h
  · intro i j hroi hhours
    rcases lt_trichotomy (i : Nat) (j : Nat) with hlt | heq | hgt
    · exact hlt
    · exfalso
      have hij : i = j := Fin.ext heq
      rw [hij] at hhours
      exact lt_irrefl _ hhours
    · exfalso
      have hfin : (Fin.cast (rank_length_eq l) j) < (Fin.cast (rank_length_eq l) i) := hgt
      have hrel := (List.sorted_insertionSort rankRel l.enum).rel_get_of_lt hfin
      rw [rankRel_iff] at hrel
      rw [rank_get l i, rank_get l j] at hroi hhours
      rcases hrel with h1 | ⟨h1, h2 | ⟨h2, _⟩⟩
      · rw [hroi] at h1
        exact lt_irrefl _ h1
      · exact lt_asymm hhours h2
      · rw [h2] at hhours
        exact lt_irrefl _ hhours

/-- C5 witness: on two concrete candidates with ROI 4 and 5 the ranker puts
the higher ROI first. -/
theorem claim5_witness :
    (((rank [candA2, candA]).get ⟨1, by decide⟩).roi_pct
        < ((rank [candA2, candA]).get ⟨0, by decide⟩).roi_pct)
    ∧ (0 : Nat) < (1 : Nat) :=
  ⟨by decide,
    (claim5_ranking [candA2, candA]).2.1 ⟨0, by decide⟩ ⟨1, by decide⟩ (by decide)⟩

end KalshiNotifier
